import Mathlib

/-!
Verification development for the Kale front end (files `src/lexer.rs`,
`src/ast.rs`, `src/parser.rs`).

The repository contains a tokenizer (`lexer.rs`) and two independent
recursive-descent / precedence-climbing AST builders: the private module
`ast.rs` (types `ExprAST`, `PrototypeAST`, `FunctionAST`, driver
`Parser::parse_ast`) and the public module `parser.rs` (types `ExprAst`,
`ProtoAst`, `FuncAst`, `Ast`).  Every definition below is a direct
translation of the corresponding Rust item; `panic!`, failed `assert_eq!`
and failed `unwrap` are modelled as `Except.error ParseErr.fault`
(resp. `none` in the tokenizer), and the mutually recursive parsing
routines take an explicit fuel argument, running out of fuel being the
distinct error `ParseErr.noFuel`.
-/

/-- Token — the token enum of `lexer.rs` (lines 4–19).  The `f64` payload of
`Number` is modelled as an exact rational. -/
inductive Token where
  | Eof
  | Def
  | LeftParen
  | RightParen
  | Comma
  | Semi
  | Add
  | Sub
  | Mul
  | Less
  | Extern
  | Identifier (s : String)
  | Number (q : ℚ)
deriving DecidableEq

/-- TokStream — the sequence of tokens a `Lexer` still has to deliver
(its two lookahead slots followed by the tokens lexed from the remaining
bytes), for input whose remaining bytes lex without fault.  The `Eof`
marker is not stored: an exhausted stream is the empty list, and peeking
past the end yields `Token.Eof`, exactly as the `Lexer` keeps returning
`Token::Eof` once the byte stream is exhausted. -/
abbrev TokStream : Type := List Token

/-- peek_first of `lexer.rs` (line 40): the pending token. -/
def TokStream.peek_first (ts : TokStream) : Token := ts.headD Token.Eof

/-- peek_second of `lexer.rs` (line 44): the token after the pending one. -/
def TokStream.peek_second (ts : TokStream) : Token := ts.tail.headD Token.Eof

/-- next_token of `lexer.rs` (line 48) seen through the stream model:
return the pending token and advance by one. -/
def TokStream.next (ts : TokStream) : Token × TokStream :=
  (ts.peek_first, ts.tail)

/-! Byte-level tokenizer, `Lexer::get_tok` (`lexer.rs` lines 56–99).
Bytes are natural numbers < 256. -/

/-- Whitespace test, Rust `u8::is_ascii_whitespace`: space, `\t`, `\n`,
form feed, `\r`. -/
def isAsciiWs (b : ℕ) : Bool := b == 32 || b == 9 || b == 10 || b == 12 || b == 13

/-- Alphabetic test, Rust `u8::is_ascii_alphabetic`. -/
def isAsciiAlpha (b : ℕ) : Bool := (65 ≤ b && b ≤ 90) || (97 ≤ b && b ≤ 122)

/-- Digit test, Rust `u8::is_ascii_digit`. -/
def isAsciiDigit (b : ℕ) : Bool := 48 ≤ b && b ≤ 57

/-- Alphanumeric test, Rust `u8::is_ascii_alphanumeric`. -/
def isAsciiAlnum (b : ℕ) : Bool := isAsciiAlpha b || isAsciiDigit b

/-- The whitespace- and comment-skipping behaviour of `get_tok`: the
whitespace arm (lines 73–76) consumes a run of whitespace and retries, and
the `#` arm (lines 68–72) consumes up to and including the next newline
and retries.  The two mutually recursive retries are flattened into one
list recursion; the flag records whether we are inside a `#` comment. -/
def skipWsComment : Bool → List ℕ → List ℕ
  | _, [] => []
  | true, b :: r => if b == 10 then skipWsComment false r else skipWsComment true r
  | false, b :: r =>
    if isAsciiWs b then skipWsComment false r
    else if b == 35 then skipWsComment true r
    else b :: r

/-- Bytes of an ASCII identifier turned into the `String` carried by
`Token::Identifier` (`String::from_utf8` on ASCII bytes). -/
def bytesToString (l : List ℕ) : String := String.mk (l.map Char.ofNat)

/-- Value of a run of decimal digit bytes. -/
def natOfDigits (l : List ℕ) : ℕ := l.foldl (fun a d => 10 * a + (d - 48)) 0

/-- Model of Rust `str::parse::<f64>().unwrap()` (`lexer.rs` line 94) on
the digit/dot strings produced by the number scanner, with the value kept
as an exact rational: `digit+` and `digit+ '.' digit*` parse to their
decimal value, anything with a second dot fails (`none` models the
panicking unwrap). -/
def parseF64 (w : List ℕ) : Option ℚ :=
  let intPart := w.takeWhile isAsciiDigit
  let rest := w.dropWhile isAsciiDigit
  if intPart = [] then none
  else
    match rest with
    | [] => some (natOfDigits intPart)
    | dot :: frac =>
      if dot = 46 ∧ frac.all isAsciiDigit then
        some ((natOfDigits intPart : ℚ) + (natOfDigits frac : ℚ) / (10 : ℚ) ^ frac.length)
      else none

/-- Keyword classification of a scanned word (`lexer.rs` lines 82–87):
`def` and `extern` are keywords, anything else is an identifier carrying
the exact text. -/
def keyword_or_ident (w : List ℕ) : Token :=
  let s := bytesToString w
  if s = "def" then Token.Def
  else if s = "extern" then Token.Extern
  else Token.Identifier s

/-- get_tok of `lexer.rs` (lines 56–99): produce one token from the byte
stream, returning the token and the remaining bytes.  `none` is the
panicking `unwrap` on an unparsable numeric literal.  Note the final
catch-all arm (line 97): an unrecognized byte is consumed and silently
yields `Token::Def`. -/
def get_tok (bs : List ℕ) : Option (Token × List ℕ) :=
  match skipWsComment false bs with
  | [] => some (Token.Eof, [])
  | b :: r =>
    if b = 40 then some (Token.LeftParen, r)
    else if b = 41 then some (Token.RightParen, r)
    else if b = 44 then some (Token.Comma, r)
    else if b = 59 then some (Token.Semi, r)
    else if b = 43 then some (Token.Add, r)
    else if b = 45 then some (Token.Sub, r)
    else if b = 42 then some (Token.Mul, r)
    else if b = 60 then some (Token.Less, r)
    else if isAsciiAlpha b then
      some (keyword_or_ident (b :: r.takeWhile isAsciiAlnum), r.dropWhile isAsciiAlnum)
    else if isAsciiDigit b then
      match parseF64 (b :: r.takeWhile (fun x => isAsciiDigit x || x == 46)) with
      | some q => some (Token.Number q, r.dropWhile (fun x => isAsciiDigit x || x == 46))
      | none => none
    else some (Token.Def, r)

/-- Lexer — the mutable state of `lexer.rs`'s `Lexer` (lines 21–25): the
remaining bytes of the reader and the two lookahead slots. -/
structure Lexer where
  bytes : List ℕ
  tok_1st : Token
  tok_2nd : Token
deriving DecidableEq

/-- Lexer::new (`lexer.rs` lines 28–38): prefill both lookahead slots. -/
def Lexer.new (bs : List ℕ) : Option Lexer :=
  match get_tok bs with
  | none => none
  | some (t1, r1) =>
    match get_tok r1 with
    | none => none
    | some (t2, r2) => some ⟨r2, t1, t2⟩

/-- Lexer::next_token (`lexer.rs` lines 48–54): return the first lookahead
token, shift the second into its place and refill the second slot. -/
def Lexer.next_token (s : Lexer) : Option (Token × Lexer) :=
  match get_tok s.bytes with
  | none => none
  | some (t, rest) => some (s.tok_1st, ⟨rest, s.tok_2nd, t⟩)

/-- The state of a Lexer that has handed out its whole input: both
lookahead slots hold `Token::Eof` and no bytes remain. -/
def Lexer.exhausted (s : Lexer) : Prop :=
  s.bytes = [] ∧ s.tok_1st = Token.Eof ∧ s.tok_2nd = Token.Eof

/-- The finite token stream a `Lexer` delivers for the given bytes, up to
(and excluding) the `Eof` marker; this is the `TokStream` the parser
models operate on.  Fuel bounds the number of tokens. -/
def tokenList : ℕ → List ℕ → Option (List Token)
  | 0, _ => none
  | fuel + 1, bs =>
    match get_tok bs with
    | none => none
    | some (Token.Eof, _) => some []
    | some (t, r) =>
      match tokenList fuel r with
      | none => none
      | some ts => some (t :: ts)

/-! Abstract syntax trees.  `ast.rs` lines 4–10 (`ExprAST` with
constructors `NumberExpr`, `VariableExpr`, `BinaryExpr`, `CallExpr`) and
`parser.rs` lines 11–17 (`ExprAst` with constructors `NumAst`, `VarAst`,
`BinAst`, `CallAst`) declare the same enum up to constructor names:
number literal, variable reference, binary operation (lhs, operator
character, rhs) and call (callee name, ordered argument vector).  Both
implementations are embedded with this single carrier (constructor names
taken from `parser.rs`), so that "structurally identical" trees are
simply equal terms. -/
inductive ExprAst where
  | NumAst (q : ℚ)
  | VarAst (s : String)
  | BinAst (lhs : ExprAst) (op : Char) (rhs : ExprAst)
  | CallAst (callee : String) (args : List ExprAst)

/-- Outcome of a fallible parsing routine: `fault` models `panic!`, a
failed `assert_eq!` or a failed `let … else`; `noFuel` is exhaustion of
the explicit fuel bounding the mutual recursion (never produced by the
Rust code itself). -/
inductive ParseErr where
  | fault
  | noFuel
deriving DecidableEq

/-- Mapping of the four operator tokens to the operator character stored
in a binary node.  Both `ast.rs` (lines 28–34) and `parser.rs` (lines
68–74) perform this same match on the token returned by `next_token`
(arm order differs only syntactically); any other token is `panic!`,
modelled by `none`. -/
def binopChar : Token → Option Char
  | Token.Add => some '+'
  | Token.Sub => some '-'
  | Token.Less => some '<'
  | Token.Mul => some '*'
  | _ => none

/-- precedence of `ast.rs` (lines 101–109): `<` → 10, `+` → 20, `-` → 20,
`*` → 40, every other token → −1. -/
def precedence : Token → ℤ
  | Token.Less => 10
  | Token.Add => 20
  | Token.Sub => 20
  | Token.Mul => 40
  | _ => -1

/-- ExprAst::get_precedence of `parser.rs` (lines 145–153): the same
table as `ast.rs`'s `precedence`. -/
def ExprAst.get_precedence : Token → ℤ
  | Token.Less => 10
  | Token.Add => 20
  | Token.Sub => 20
  | Token.Mul => 40
  | _ => -1

/-- The mutually recursive expression-parsing routines of `ast.rs`; each
constructor is one routine (plus its loop state). -/
inductive AMode where
  /-- ExprAST::parse (`ast.rs` line 13). -/
  | parse
  /-- ExprAST::parse_primary (`ast.rs` line 51). -/
  | parse_primary
  /-- ExprAST::parse_bin_ops (`ast.rs` line 18) with its two arguments
  `expr_prec` and `lhs`. -/
  | parse_bin_ops (expr_prec : ℤ) (lhs : ExprAst)
  /-- ExprAST::parse_paren (`ast.rs` line 71). -/
  | parse_paren
  /-- ExprAST::parse_call (`ast.rs` line 81). -/
  | parse_call
  /-- The argument loop of ExprAST::parse_call (`ast.rs` lines 85–96),
  with the callee name and the arguments accumulated so far. -/
  | call_args (callee : String) (args : List ExprAst)

/-- The expression parser of `ast.rs` (lines 12–99), one fuel-indexed
function dispatching on the routine being run.  Every recursive call of
the Rust code becomes a call at one unit less fuel. -/
def astRun : ℕ → AMode → TokStream → Except ParseErr (ExprAst × TokStream)
  | 0, _, _ => Except.error ParseErr.noFuel
  | fuel + 1, AMode.parse, ts =>
    -- parse: primary, then parse_bin_ops(0, lhs)
    match astRun fuel AMode.parse_primary ts with
    | Except.error e => Except.error e
    | Except.ok (lhs, ts1) => astRun fuel (AMode.parse_bin_ops 0 lhs) ts1
  | fuel + 1, AMode.parse_bin_ops expr_prec lhs, ts =>
    let tok_prec := precedence ts.peek_first
    -- not a binop binding at least as tightly: done
    if tok_prec < expr_prec then Except.ok (lhs, ts)
    else
      match binopChar (TokStream.next ts).1 with
      | none => Except.error ParseErr.fault
      | some binop =>
        let ts1 := (TokStream.next ts).2
        match astRun fuel AMode.parse_primary ts1 with
        | Except.error e => Except.error e
        | Except.ok (rhs, ts2) =>
          let next_prec := precedence ts2.peek_first
          if tok_prec < next_prec then
            -- the pending operator binds tighter: extend rhs first
            match astRun fuel (AMode.parse_bin_ops (tok_prec + 1) rhs) ts2 with
            | Except.error e => Except.error e
            | Except.ok (rhs', ts3) =>
              astRun fuel (AMode.parse_bin_ops expr_prec (ExprAst.BinAst lhs binop rhs')) ts3
          else
            astRun fuel (AMode.parse_bin_ops expr_prec (ExprAst.BinAst lhs binop rhs)) ts2
  | fuel + 1, AMode.parse_primary, ts =>
    match ts.peek_first with
    | Token.Number n => Except.ok (ExprAst.NumAst n, (TokStream.next ts).2)
    | Token.LeftParen => astRun fuel AMode.parse_paren ts
    | Token.Identifier _ =>
      if ts.peek_second = Token.LeftParen then astRun fuel AMode.parse_call ts
      else
        match TokStream.next ts with
        | (Token.Identifier s, ts1) => Except.ok (ExprAst.VarAst s, ts1)
        | _ => Except.error ParseErr.fault
    | _ => Except.error ParseErr.fault
  | fuel + 1, AMode.parse_paren, ts =>
    let ts1 := (TokStream.next ts).2     -- eat `(`
    match astRun fuel AMode.parse ts1 with
    | Except.error e => Except.error e
    | Except.ok (val, ts2) =>
      if ts2.peek_first = Token.RightParen then Except.ok (val, (TokStream.next ts2).2)
      else Except.error ParseErr.fault
  | fuel + 1, AMode.parse_call, ts =>
    match TokStream.next ts with
    | (Token.Identifier name, ts1) =>
      astRun fuel (AMode.call_args name []) (TokStream.next ts1).2   -- eat `(`
    | _ => Except.error ParseErr.fault
  | fuel + 1, AMode.call_args name args, ts =>
    -- args.push(parse(lexer)) first, then `)` stops or `,` continues
    match astRun fuel AMode.parse ts with
    | Except.error e => Except.error e
    | Except.ok (arg, ts1) =>
      if ts1.peek_first = Token.RightParen then
        Except.ok (ExprAst.CallAst name (args ++ [arg]), (TokStream.next ts1).2)
      else if ts1.peek_first = Token.Comma then
        astRun fuel (AMode.call_args name (args ++ [arg])) (TokStream.next ts1).2
      else Except.error ParseErr.fault

/-- ExprAST::parse of `ast.rs` (line 13). -/
def ExprAST.parse (fuel : ℕ) (ts : TokStream) : Except ParseErr (ExprAst × TokStream) :=
  astRun fuel AMode.parse ts

/-- PrototypeAST of `ast.rs` (lines 114–117). -/
structure PrototypeAST where
  name : String
  args : List String
deriving DecidableEq

/-- The `while let Token::Identifier(s) = lexer.next_token()` loop of
PrototypeAST::parse (`ast.rs` lines 126–128): identifiers are consumed
and appended; the first non-identifier token is consumed too, ending the
loop (on an already-empty stream the consumed token is `Eof` and the
stream stays empty). -/
def astProtoArgsLoop : TokStream → List String → List String × TokStream
  | Token.Identifier s :: rest, args => astProtoArgsLoop rest (args ++ [s])
  | _ :: rest, args => (args, rest)
  | [], args => (args, [])

/-- PrototypeAST::parse (`ast.rs` lines 120–134): identifier name, then
`(` (checked by `assert_eq!`), then the identifier loop; after the loop
the pending token must be `)` and is consumed. -/
def PrototypeAST.parse (ts : TokStream) : Except ParseErr (PrototypeAST × TokStream) :=
  match ts with
  | Token.Identifier name :: Token.LeftParen :: ts2 =>
    let (args, ts3) := astProtoArgsLoop ts2 []
    if ts3.peek_first = Token.RightParen then
      Except.ok (⟨name, args⟩, (TokStream.next ts3).2)
    else Except.error ParseErr.fault
  | Token.Identifier _ :: _ :: _ => Except.error ParseErr.fault  -- assert_eq! fails
  | Token.Identifier _ :: [] => Except.error ParseErr.fault      -- assert_eq! on Eof
  | _ => Except.error ParseErr.fault                             -- let-else panics

/-- FunctionAST of `ast.rs` (lines 138–141). -/
structure FunctionAST where
  proto : PrototypeAST
  body : ExprAst

/-- FunctionAST::parse (`ast.rs` lines 144–149): eat `def` (unchecked),
parse a prototype, then the body expression. -/
def FunctionAST.parse (fuel : ℕ) (ts : TokStream) :
    Except ParseErr (FunctionAST × TokStream) :=
  let ts1 := (TokStream.next ts).2      -- eat `def`
  match PrototypeAST.parse ts1 with
  | Except.error e => Except.error e
  | Except.ok (proto, ts2) =>
    match ExprAST.parse fuel ts2 with
    | Except.error e => Except.error e
    | Except.ok (body, ts3) => Except.ok (⟨proto, body⟩, ts3)

/-- The `Ast` enum of `ast.rs` (lines 152–156); named `AstA` here because
`parser.rs` declares an enum of the same name, embedded below as `Ast`. -/
inductive AstA where
  | ExprAST (e : ExprAst)
  | PrototypeAST (p : PrototypeAST)
  | FunctionAST (f : FunctionAST)

/-- Parser::parse_ast of `ast.rs` (lines 167–187), with the accumulation
buffer `self.buf` passed explicitly: loop on the pending token — `Eof`
stops, `Semi` is consumed and skipped, `def` pushes a FunctionAST, `extern`
is consumed and a PrototypeAST is pushed, anything else pushes a bare
parsed expression as an `ExprAST` unit. -/
def Parser.parse_ast : ℕ → List AstA → TokStream → Except ParseErr (List AstA × TokStream)
  | 0, _, _ => Except.error ParseErr.noFuel
  | fuel + 1, buf, ts =>
    match ts.peek_first with
    | Token.Eof => Except.ok (buf, ts)
    | Token.Semi => Parser.parse_ast fuel buf (TokStream.next ts).2
    | Token.Def =>
      match FunctionAST.parse fuel ts with
      | Except.error e => Except.error e
      | Except.ok (f, ts') => Parser.parse_ast fuel (buf ++ [AstA.FunctionAST f]) ts'
    | Token.Extern =>
      match PrototypeAST.parse (TokStream.next ts).2 with
      | Except.error e => Except.error e
      | Except.ok (p, ts') => Parser.parse_ast fuel (buf ++ [AstA.PrototypeAST p]) ts'
    | _ =>
      match ExprAST.parse fuel ts with
      | Except.error e => Except.error e
      | Except.ok (e, ts') => Parser.parse_ast fuel (buf ++ [AstA.ExprAST e]) ts'

/-! The public parser, `parser.rs`. -/

/-- The mutually recursive expression-parsing routines of `parser.rs`;
each constructor is one routine (plus its loop state). -/
inductive PMode where
  /-- ExprAst::parse (`parser.rs` line 57). -/
  | parse
  /-- ExprAst::parse_primary (`parser.rs` line 89). -/
  | parse_primary
  /-- ExprAst::parse_bin_rhs (`parser.rs` line 62) with its arguments
  `lhs` and `prec_prev`. -/
  | parse_bin_rhs (lhs : ExprAst) (prec_prev : ℤ)
  /-- The `loop` inside parse_bin_rhs (`parser.rs` lines 78–86), with its
  state: the saved `lhs`/`operator`, the current `rhs`, and the
  precedences `prec_prev` and `prec_cur`. -/
  | bin_loop (lhs : ExprAst) (operator : Char) (rhs : ExprAst) (prec_prev prec_cur : ℤ)
  /-- ExprAst::parse_number (`parser.rs` line 101). -/
  | parse_number
  /-- ExprAst::parse_paren (`parser.rs` line 106). -/
  | parse_paren
  /-- ExprAst::parse_var (`parser.rs` line 119). -/
  | parse_var
  /-- ExprAst::parse_call (`parser.rs` line 124). -/
  | parse_call
  /-- The argument loop of ExprAst::parse_call (`parser.rs` lines
  128–140), with the callee name and the arguments accumulated so far. -/
  | call_args (callee : String) (args : List ExprAst)

/-- The expression parser of `parser.rs` (lines 56–154), one fuel-indexed
function dispatching on the routine being run.  Every recursive call of
the Rust code becomes a call at one unit less fuel. -/
def parserRun : ℕ → PMode → TokStream → Except ParseErr (ExprAst × TokStream)
  | 0, _, _ => Except.error ParseErr.noFuel
  | fuel + 1, PMode.parse, ts =>
    -- parse: primary, then parse_bin_rhs(lhs, 0)
    match parserRun fuel PMode.parse_primary ts with
    | Except.error e => Except.error e
    | Except.ok (lhs, ts1) => parserRun fuel (PMode.parse_bin_rhs lhs 0) ts1
  | fuel + 1, PMode.parse_bin_rhs lhs prec_prev, ts =>
    let prec_cur := ExprAst.get_precedence ts.peek_first
    if prec_cur ≤ prec_prev then Except.ok (lhs, ts)
    else
      match binopChar (TokStream.next ts).1 with
      | none => Except.error ParseErr.fault
      | some operator =>
        let ts1 := (TokStream.next ts).2
        match parserRun fuel PMode.parse_primary ts1 with
        | Except.error e => Except.error e
        | Except.ok (rhs, ts2) =>
          parserRun fuel (PMode.bin_loop lhs operator rhs prec_prev prec_cur) ts2
  | fuel + 1, PMode.bin_loop lhs operator rhs prec_prev prec_cur, ts =>
    let prec_next := ExprAst.get_precedence ts.peek_first
    if prec_next ≤ prec_cur then
      -- merge and continue at the current level
      parserRun fuel (PMode.parse_bin_rhs (ExprAst.BinAst lhs operator rhs) prec_prev) ts
    else
      -- the pending operator binds tighter: extend rhs, then loop
      match parserRun fuel (PMode.parse_bin_rhs rhs prec_cur) ts with
      | Except.error e => Except.error e
      | Except.ok (rhs', ts') =>
        parserRun fuel (PMode.bin_loop lhs operator rhs' prec_prev prec_cur) ts'
  | fuel + 1, PMode.parse_primary, ts =>
    match ts.peek_first with
    | Token.Number _ => parserRun fuel PMode.parse_number ts
    | Token.LeftParen => parserRun fuel PMode.parse_paren ts
    | Token.Identifier _ =>
      match ts.peek_second with
      | Token.LeftParen => parserRun fuel PMode.parse_call ts
      | _ => parserRun fuel PMode.parse_var ts
    | _ => Except.error ParseErr.fault
  | _ + 1, PMode.parse_number, ts =>
    match TokStream.next ts with
    | (Token.Number n, ts1) => Except.ok (ExprAst.NumAst n, ts1)
    | _ => Except.error ParseErr.fault
  | fuel + 1, PMode.parse_paren, ts =>
    let ts1 := (TokStream.next ts).2     -- eat `(`
    match parserRun fuel PMode.parse ts1 with
    | Except.error e => Except.error e
    | Except.ok (expr, ts2) =>
      match ts2.peek_first with
      | Token.RightParen => Except.ok (expr, (TokStream.next ts2).2)
      | _ => Except.error ParseErr.fault
  | _ + 1, PMode.parse_var, ts =>
    match TokStream.next ts with
    | (Token.Identifier s, ts1) => Except.ok (ExprAst.VarAst s, ts1)
    | _ => Except.error ParseErr.fault
  | fuel + 1, PMode.parse_call, ts =>
    match TokStream.next ts with
    | (Token.Identifier name, ts1) =>
      parserRun fuel (PMode.call_args name []) (TokStream.next ts1).2   -- eat `(`
    | _ => Except.error ParseErr.fault
  | fuel + 1, PMode.call_args name args, ts =>
    -- `if lexer.peek_first() == &Token::RightParen { break; }` first
    if ts.peek_first = Token.RightParen then
      Except.ok (ExprAst.CallAst name args, (TokStream.next ts).2)
    else
      match parserRun fuel PMode.parse ts with
      | Except.error e => Except.error e
      | Except.ok (arg, ts1) =>
        match ts1.peek_first with
        | Token.RightParen =>
          Except.ok (ExprAst.CallAst name (args ++ [arg]), (TokStream.next ts1).2)
        | Token.Comma =>
          parserRun fuel (PMode.call_args name (args ++ [arg])) (TokStream.next ts1).2
        | _ => Except.error ParseErr.fault

/-- ExprAst::parse of `parser.rs` (line 57). -/
def ExprAst.parse (fuel : ℕ) (ts : TokStream) : Except ParseErr (ExprAst × TokStream) :=
  parserRun fuel PMode.parse ts

/-- ProtoAst of `parser.rs` (lines 19–23). -/
structure ProtoAst where
  name : String
  args : List String
deriving DecidableEq

/-- The argument loop of ProtoAst::parse (`parser.rs` lines 161–168):
`next_token` each round — `)` ends the list, a comma is silently skipped,
an identifier is appended, anything else (including `Eof` on an empty
stream) is `panic!`. -/
def protoArgsLoop : TokStream → List String → Except ParseErr (List String × TokStream)
  | [], _ => Except.error ParseErr.fault
  | t :: rest, args =>
    match t with
    | Token.RightParen => Except.ok (args, rest)
    | Token.Comma => protoArgsLoop rest args
    | Token.Identifier s => protoArgsLoop rest (args ++ [s])
    | _ => Except.error ParseErr.fault

/-- ProtoAst::parse (`parser.rs` lines 157–170): identifier name, then
one token is consumed unchecked as the `(`, then the argument loop. -/
def ProtoAst.parse (ts : TokStream) : Except ParseErr (ProtoAst × TokStream) :=
  match ts with
  | Token.Identifier name :: ts1 =>
    match protoArgsLoop ts1.tail [] with   -- `lexer.next_token(); // eat (`
    | Except.error e => Except.error e
    | Except.ok (args, ts') => Except.ok (⟨name, args⟩, ts')
  | _ => Except.error ParseErr.fault

/-- FuncAst of `parser.rs` (lines 26–29). -/
structure FuncAst where
  proto : ProtoAst
  body : ExprAst

/-- FuncAst::parse (`parser.rs` lines 174–179): eat `def` (unchecked),
parse a prototype, then the body expression. -/
def FuncAst.parse (fuel : ℕ) (ts : TokStream) : Except ParseErr (FuncAst × TokStream) :=
  let ts1 := (TokStream.next ts).2      -- eat `def`
  match ProtoAst.parse ts1 with
  | Except.error e => Except.error e
  | Except.ok (proto, ts2) =>
    match ExprAst.parse fuel ts2 with
    | Except.error e => Except.error e
    | Except.ok (body, ts3) => Except.ok (⟨proto, body⟩, ts3)

/-- The `Ast` enum of `parser.rs` (lines 4–9): one top-level unit. -/
inductive Ast where
  | Expr (e : ExprAst)
  | Proto (p : ProtoAst)
  | Func (f : FuncAst)

/-- Ast::parse_top_level_expr (`parser.rs` lines 46–53): parse one
expression and wrap it into a `Func` whose prototype has an empty name
and no parameters. -/
def Ast.parse_top_level_expr (fuel : ℕ) (ts : TokStream) :
    Except ParseErr (Ast × TokStream) :=
  match ExprAst.parse fuel ts with
  | Except.error e => Except.error e
  | Except.ok (expr, ts') => Except.ok (Ast.Func ⟨⟨"", []⟩, expr⟩, ts')

/-- Ast::parse (`parser.rs` lines 33–39): dispatch on the pending token —
`extern` parses a prototype unit (Ast::parse_extern, lines 41–44, inlined
here), `def` a function unit, and anything else a top-level expression.
There is no arm for `Semi` or `Eof`. -/
def Ast.parse (fuel : ℕ) (ts : TokStream) : Except ParseErr (Ast × TokStream) :=
  match ts.peek_first with
  | Token.Extern =>
    match ProtoAst.parse (TokStream.next ts).2 with   -- eat `extern`
    | Except.error e => Except.error e
    | Except.ok (p, ts') => Except.ok (Ast.Proto p, ts')
  | Token.Def =>
    match FuncAst.parse fuel ts with
    | Except.error e => Except.error e
    | Except.ok (f, ts') => Except.ok (Ast.Func f, ts')
  | _ => Ast.parse_top_level_expr fuel ts

/-! Helper lemmas. -/

/-- The two precedence tables are identical. -/
theorem get_precedence_eq_precedence (t : Token) :
    ExprAst.get_precedence t = precedence t := by
  cases t <;> rfl

/-- The precedence table only takes the values −1, 10, 20, 40. -/
theorem precedence_values (t : Token) :
    precedence t = -1 ∨ precedence t = 10 ∨ precedence t = 20 ∨ precedence t = 40 := by
  cases t <;> simp [precedence]

/-- A word of alphanumerics followed by a non-alphanumeric splits a
takeWhile/dropWhile at exactly the word boundary. -/
theorem takeWhile_dropWhile_word (p : ℕ → Bool) (w rest : List ℕ)
    (hw : w.all p = true) (hr : (rest.take 1).all (fun x => ! p x) = true) :
    (w ++ rest).takeWhile p = w ∧ (w ++ rest).dropWhile p = rest := by
  induction w with
  | nil =>
    cases rest with
    | nil => simp
    | cons r rs =>
      simp only [List.take, List.all_cons, Bool.and_eq_true, List.all_nil] at hr
      have hpr : p r = false := by simpa using hr.1
      simp [List.takeWhile_cons, List.dropWhile_cons, hpr]
  | cons a as ih =>
    simp only [List.all_cons, Bool.and_eq_true] at hw
    have h := ih hw.2
    simp [List.takeWhile_cons, List.dropWhile_cons, hw.1, h.1, h.2]

/-! Claim C1. -/

/-- C1: for the token stream of `"1 + 2 * 3"` expression parsing (in both
`parser.rs` and `ast.rs`) returns `BinaryOp(1, '+', BinaryOp(2, '*', 3))`,
and for `"1 - 2 - 3"` it returns `BinaryOp(BinaryOp(1, '-', 2), '-', 3)`:
`*` (precedence 40) binds tighter than `+`/`-` (precedence 20), and
equal-precedence operators group left-associatively. -/
theorem c1_precedence_and_associativity :
    tokenList 20 [49, 32, 43, 32, 50, 32, 42, 32, 51]
      = some [Token.Number 1, Token.Add, Token.Number 2, Token.Mul, Token.Number 3]
  ∧ tokenList 20 [49, 32, 45, 32, 50, 32, 45, 32, 51]
      = some [Token.Number 1, Token.Sub, Token.Number 2, Token.Sub, Token.Number 3]
  ∧ ExprAst.parse 20 [Token.Number 1, Token.Add, Token.Number 2, Token.Mul, Token.Number 3]
      = Except.ok (ExprAst.BinAst (ExprAst.NumAst 1) '+'
          (ExprAst.BinAst (ExprAst.NumAst 2) '*' (ExprAst.NumAst 3)), [])
  ∧ ExprAst.parse 20 [Token.Number 1, Token.Sub, Token.Number 2, Token.Sub, Token.Number 3]
      = Except.ok (ExprAst.BinAst
          (ExprAst.BinAst (ExprAst.NumAst 1) '-' (ExprAst.NumAst 2)) '-'
          (ExprAst.NumAst 3), [])
  ∧ ExprAST.parse 20 [Token.Number 1, Token.Add, Token.Number 2, Token.Mul, Token.Number 3]
      = Except.ok (ExprAst.BinAst (ExprAst.NumAst 1) '+'
          (ExprAst.BinAst (ExprAst.NumAst 2) '*' (ExprAst.NumAst 3)), [])
  ∧ ExprAST.parse 20 [Token.Number 1, Token.Sub, Token.Number 2, Token.Sub, Token.Number 3]
      = Except.ok (ExprAst.BinAst
          (ExprAst.BinAst (ExprAst.NumAst 1) '-' (ExprAst.NumAst 2)) '-'
          (ExprAst.NumAst 3), [])
  ∧ ExprAst.get_precedence Token.Mul = 40
  ∧ ExprAst.get_precedence Token.Add = 20
  ∧ ExprAst.get_precedence Token.Sub = 20
  ∧ precedence Token.Mul = 40 ∧ precedence Token.Add = 20 ∧ precedence Token.Sub = 20 :=
  ⟨by decide, by decide, rfl, rfl, rfl, rfl, rfl, rfl, rfl, rfl, rfl, rfl⟩

/-! Claim C2. -/

/-- C2: the tokenizer does NOT surface a lexical error on an unrecognized
byte — the catch-all arm of `get_tok` (`lexer.rs` line 97) consumes the
byte and silently returns the `def` keyword token.  Here byte 64 (`@`),
which is not whitespace, `#`, a letter, a digit, or a single-character
token byte, lexes to `Token::Def` with no fault. -/
theorem c2_unknown_byte_silently_def :
    get_tok [64] = some (Token.Def, []) ∧ get_tok [64, 49] = some (Token.Def, [49]) :=
  ⟨rfl, rfl⟩

/-! Claim C8. -/

/-- C8: once the Lexer is exhausted (no bytes remain and both lookahead
slots hold `Eof`), `next_token` succeeds, returns the end-of-stream token,
and leaves the Lexer in the very same exhausted state — so every
subsequent call again returns `Eof` and never faults. -/
theorem c8_next_token_exhausted_idempotent (s : Lexer) (h : s.exhausted) :
    s.next_token = some (Token.Eof, s) := by
  obtain ⟨hb, h1, h2⟩ := h
  cases s
  simp only at hb h1 h2
  subst hb; subst h1; subst h2
  rfl

/-- Witness for C8 at the concrete exhausted state. -/
theorem c8_witness :
    Lexer.exhausted ⟨[], Token.Eof, Token.Eof⟩
  ∧ Lexer.next_token ⟨[], Token.Eof, Token.Eof⟩
      = some (Token.Eof, ⟨[], Token.Eof, Token.Eof⟩) :=
  ⟨⟨rfl, rfl, rfl⟩, c8_next_token_exhausted_idempotent _ ⟨rfl, rfl, rfl⟩⟩

/-! Claim C9. -/

/-- C9: for every maximal alphanumeric word starting with an alphabetic
byte (the following byte, if any, is not alphanumeric), `get_tok` consumes
exactly the word and classifies it with `keyword_or_ident`: the `def`
keyword token for the text "def", the `extern` keyword token for the text
"extern", and otherwise an identifier token carrying exactly that text. -/
theorem c9_word_classification (c : ℕ) (w rest : List ℕ)
    (hc : isAsciiAlpha c = true)
    (hw : w.all isAsciiAlnum = true)
    (hr : (rest.take 1).all (fun x => ! isAsciiAlnum x) = true) :
    get_tok (c :: (w ++ rest)) = some (keyword_or_ident (c :: w), rest) := by
  have hcb : 65 ≤ c ∧ c ≤ 90 ∨ 97 ≤ c ∧ c ≤ 122 := by
    simpa [isAsciiAlpha] using hc
  have hws : isAsciiWs c = false := by
    simp only [isAsciiWs]
    simp only [Bool.or_eq_false_iff, beq_eq_false_iff_ne]
    omega
  have hhash : (c == 35) = false := by
    simp only [beq_eq_false_iff_ne]
    omega
  have hskip : skipWsComment false (c :: (w ++ rest)) = c :: (w ++ rest) := by
    simp [skipWsComment, hws, hhash]
  have hsplit := takeWhile_dropWhile_word isAsciiAlnum w rest hw hr
  simp only [get_tok, hskip]
  have h40 : c ≠ 40 := by omega
  have h41 : c ≠ 41 := by omega
  have h44 : c ≠ 44 := by omega
  have h59 : c ≠ 59 := by omega
  have h43 : c ≠ 43 := by omega
  have h45 : c ≠ 45 := by omega
  have h42 : c ≠ 42 := by omega
  have h60 : c ≠ 60 := by omega
  rw [if_neg h40, if_neg h41, if_neg h44, if_neg h59, if_neg h43, if_neg h45,
      if_neg h42, if_neg h60, if_pos hc]
  rw [hsplit.1, hsplit.2]

/-- Witness for C9: the word "foo" followed by `(` lexes to an identifier
token carrying exactly "foo". -/
theorem c9_witness :
    isAsciiAlpha 102 = true
  ∧ ([111, 111] : List ℕ).all isAsciiAlnum = true
  ∧ (([40] : List ℕ).take 1).all (fun x => ! isAsciiAlnum x) = true
  ∧ get_tok [102, 111, 111, 40] = some (Token.Identifier "foo", [40]) :=
  ⟨by decide, by decide, by decide,
    (c9_word_classification 102 [111, 111] [40] (by decide) (by decide) (by decide)).trans
      (by decide)⟩

/-! Claim C3. -/

/-- C3: counterexample — the call parser of `parser.rs` does NOT surface a
parse failure on a trailing comma: the token stream of `"foo(1,)"`
silently parses to `Call("foo", [1])` with the whole input consumed. -/
theorem c3_counterexample_trailing_comma_accepted :
    tokenList 20 [102, 111, 111, 40, 49, 44, 41]
      = some [Token.Identifier "foo", Token.LeftParen, Token.Number 1,
              Token.Comma, Token.RightParen]
  ∧ ExprAst.parse 20 [Token.Identifier "foo", Token.LeftParen, Token.Number 1,
      Token.Comma, Token.RightParen]
      = Except.ok (ExprAst.CallAst "foo" [ExprAst.NumAst 1], []) :=
  ⟨by decide, rfl⟩

/-- C3 (amended): `ast.rs`'s call parser faults on the trailing comma of
`"foo(1,)"`, but `parser.rs`'s argument loop checks for `)` before parsing
each argument, so after a comma an immediate `)` ends the list silently:
`"foo(1,)"` yields `Call("foo", [1])` with no error. -/
theorem c3_amended_trailing_comma :
    ExprAST.parse 20 [Token.Identifier "foo", Token.LeftParen, Token.Number 1,
      Token.Comma, Token.RightParen] = Except.error ParseErr.fault
  ∧ ∀ (fuel : ℕ) (name : String) (args : List ExprAst) (ts : TokStream),
      parserRun (fuel + 1) (PMode.call_args name args) (Token.RightParen :: ts)
        = Except.ok (ExprAst.CallAst name args, ts) :=
  ⟨rfl, fun _ _ _ _ => rfl⟩

/-! Claim C4. -/

/-- C4: counterexample — in `parser.rs`'s prototype parser a comma inside
the parameter list is NOT a fatal parse failure: it is silently skipped,
so `foo(a, b)` parses to the prototype `foo` with parameters `[a, b]`. -/
theorem c4_counterexample_proto_comma_not_fatal :
    ProtoAst.parse [Token.Identifier "foo", Token.LeftParen, Token.Identifier "a",
      Token.Comma, Token.Identifier "b", Token.RightParen]
      = Except.ok (⟨"foo", ["a", "b"]⟩, []) := rfl

/-- C4 (amended): during `parser.rs` prototype parsing, after the name and
`(` every consumed token must be an identifier (appended to the parameter
list), `)` (ending the list) or a comma, which is skipped as a no-op, so
comma separators are permitted and ignored; any other token is fatal.  In
`ast.rs`, the first non-identifier token consumed ends the parameter loop
and the token after it must be `)`: a comma immediately before `)` is
tolerated while a comma between two parameters is fatal. -/
theorem c4_amended_proto_commas :
    (∀ (s : String) (ts : TokStream) (args : List String),
      protoArgsLoop (Token.Identifier s :: Token.Comma :: ts) args
        = protoArgsLoop ts (args ++ [s]))
  ∧ (∀ (ts : TokStream) (args : List String),
      protoArgsLoop (Token.Comma :: ts) args = protoArgsLoop ts args)
  ∧ (∀ (q : ℚ) (ts : TokStream) (args : List String),
      protoArgsLoop (Token.Number q :: ts) args = Except.error ParseErr.fault)
  ∧ ProtoAst.parse [Token.Identifier "foo", Token.LeftParen, Token.Identifier "a",
      Token.Comma, Token.Identifier "b", Token.Comma, Token.Identifier "c",
      Token.RightParen, Token.Semi]
      = Except.ok (⟨"foo", ["a", "b", "c"]⟩, [Token.Semi])
  ∧ PrototypeAST.parse [Token.Identifier "foo", Token.LeftParen, Token.Identifier "a",
      Token.Comma, Token.RightParen] = Except.ok (⟨"foo", ["a"]⟩, [])
  ∧ PrototypeAST.parse [Token.Identifier "foo", Token.LeftParen, Token.Identifier "a",
      Token.Comma, Token.Identifier "b", Token.RightParen] = Except.error ParseErr.fault :=
  ⟨fun _ _ _ => rfl, fun _ _ => rfl, fun _ _ _ => rfl, rfl, rfl, rfl⟩

/-! Claim C5. -/

/-- C5: counterexample — in `ast.rs`'s top-level driver a bare expression
is pushed unwrapped as an `ExprAST` unit, not as a synthetic nameless,
paramless `Function` unit: parsing the single bare expression `1` yields
the unit `Ast::ExprAST(1)`, which is not the `FunctionAST` unit the claim
prescribes. -/
theorem c5_counterexample_bare_expr_not_wrapped :
    Parser.parse_ast 20 [] [Token.Number 1]
      = Except.ok ([AstA.ExprAST (ExprAst.NumAst 1)], [])
  ∧ AstA.ExprAST (ExprAst.NumAst 1)
      ≠ AstA.FunctionAST ⟨⟨"", []⟩, ExprAst.NumAst 1⟩ :=
  ⟨rfl, by simp⟩

/-- C5 (amended): in `parser.rs`, whenever the pending token is neither
`def` nor `extern` and the expression parser succeeds, `Ast::parse`
returns a `Func` unit whose prototype has an empty name and an empty
parameter list and whose body is exactly the parsed expression; `ast.rs`'s
driver instead pushes the bare expression unwrapped as an `ExprAST`
unit. -/
theorem c5_amended_anonymous_wrapping (fuel : ℕ) (ts : TokStream)
    (e : ExprAst) (ts' : TokStream)
    (hdef : ts.peek_first ≠ Token.Def) (hext : ts.peek_first ≠ Token.Extern)
    (h : ExprAst.parse fuel ts = Except.ok (e, ts')) :
    Ast.parse fuel ts = Except.ok (Ast.Func ⟨⟨"", []⟩, e⟩, ts') := by
  rw [Ast.parse]
  cases hpk : ts.peek_first <;>
    simp_all [Ast.parse_top_level_expr, h]

/-- Witness for C5 (amended) at the bare expression `7`. -/
theorem c5_witness :
    TokStream.peek_first [Token.Number 7] ≠ Token.Def
  ∧ TokStream.peek_first [Token.Number 7] ≠ Token.Extern
  ∧ ExprAst.parse 20 [Token.Number 7] = Except.ok (ExprAst.NumAst 7, [])
  ∧ Ast.parse 20 [Token.Number 7]
      = Except.ok (Ast.Func ⟨⟨"", []⟩, ExprAst.NumAst 7⟩, []) :=
  ⟨by decide, by decide, rfl,
    c5_amended_anonymous_wrapping 20 [Token.Number 7] (ExprAst.NumAst 7) []
      (by decide) (by decide) rfl⟩

/-! Claim C6. -/

/-- C6: counterexample — `parser.rs`'s top-level dispatch `Ast::parse` has
no arm for a bare semicolon or for end-of-stream: on the pending token `;`
(and likewise on an exhausted stream) it attempts to parse an expression
and faults, instead of consuming the semicolon as a no-op separator. -/
theorem c6_counterexample_semi_faults :
    Ast.parse 20 [Token.Semi] = Except.error ParseErr.fault
  ∧ Ast.parse 20 [] = Except.error ParseErr.fault :=
  ⟨rfl, rfl⟩

/-- C6 (amended): the no-op-semicolon and stop-on-end-of-stream behaviour
belongs to `ast.rs`'s driver loop `Parser::parse_ast`: a pending semicolon
is consumed and skipped, producing no unit and no error (the loop
continues on the rest of the stream with the buffer unchanged), and on
end-of-stream the loop stops, returning the accumulated units.
`parser.rs`'s single-unit `Ast::parse` instead faults on both. -/
theorem c6_amended_semi_skip_eof_stop :
    (∀ (fuel : ℕ) (buf : List AstA) (ts : TokStream),
      Parser.parse_ast (fuel + 1) buf (Token.Semi :: ts) = Parser.parse_ast fuel buf ts)
  ∧ (∀ (fuel : ℕ) (buf : List AstA),
      Parser.parse_ast (fuel + 1) buf [] = Except.ok (buf, [])) :=
  ⟨fun _ _ _ => rfl, fun _ _ => rfl⟩

/-! Claim C7. -/

/-- The argument loop of `parser.rs`'s parse_call only ever returns a
`CallAst` node for its own callee name. -/
theorem parserRun_call_args_shape (fuel : ℕ) :
    ∀ (name : String) (args : List ExprAst) (ts : TokStream) (e : ExprAst)
      (ts' : TokStream),
      parserRun fuel (PMode.call_args name args) ts = Except.ok (e, ts') →
      ∃ as2, e = ExprAst.CallAst name as2 := by
  induction fuel with
  | zero =>
    intro name args ts e ts' h
    simp [parserRun] at h
  | succ f ih =>
    intro name args ts e ts' h
    rw [parserRun] at h
    by_cases hrp : ts.peek_first = Token.RightParen
    · rw [if_pos hrp] at h
      exact ⟨args, by injection h with h1; injection h1 with h2 _; exact h2.symm⟩
    · rw [if_neg hrp] at h
      cases harg : parserRun f PMode.parse ts with
      | error e0 => rw [harg] at h; exact absurd h (by simp)
      | ok v =>
        obtain ⟨arg, ts1⟩ := v
        rw [harg] at h
        dsimp only at h
        cases hpk : ts1.peek_first <;> rw [hpk] at h <;> dsimp only at h <;>
          first
          | exact Except.noConfusion h
          | exact ⟨args ++ [arg],
              by injection h with h1; injection h1 with h2 _; exact h2.symm⟩
          | exact ih name (args ++ [arg]) (TokStream.next ts1).2 e ts' h

/-- parse_var of `parser.rs` on a pending identifier returns exactly that
variable reference and consumes one token. -/
theorem parserRun_parse_var_result (f : ℕ) (ts : TokStream) (s : String)
    (e : ExprAst) (ts' : TokStream) (hpk : ts.peek_first = Token.Identifier s)
    (h : parserRun f PMode.parse_var ts = Except.ok (e, ts')) :
    e = ExprAst.VarAst s ∧ ts' = ts.tail := by
  cases f with
  | zero => exact Except.noConfusion h
  | succ g =>
    rw [parserRun] at h
    have hnext : TokStream.next ts = (Token.Identifier s, ts.tail) := by
      simp [TokStream.next, hpk]
    rw [hnext] at h
    dsimp only at h
    injection h with h1
    injection h1 with h2 h3
    exact ⟨h2.symm, h3.symm⟩

/-- parse_call of `parser.rs` on a pending identifier returns a call node
whose callee is exactly that identifier. -/
theorem parserRun_parse_call_name (f : ℕ) (ts : TokStream) (s : String)
    (e : ExprAst) (ts' : TokStream) (hpk : ts.peek_first = Token.Identifier s)
    (h : parserRun f PMode.parse_call ts = Except.ok (e, ts')) :
    ∃ args, e = ExprAst.CallAst s args := by
  cases f with
  | zero => exact Except.noConfusion h
  | succ g =>
    rw [parserRun] at h
    have hnext : TokStream.next ts = (Token.Identifier s, ts.tail) := by
      simp [TokStream.next, hpk]
    rw [hnext] at h
    dsimp only at h
    exact parserRun_call_args_shape g s [] _ e ts' h

/-- The argument loop of `ast.rs`'s parse_call only ever returns a
`CallExpr` node for its own callee name. -/
theorem astRun_call_args_shape (fuel : ℕ) :
    ∀ (name : String) (args : List ExprAst) (ts : TokStream) (e : ExprAst)
      (ts' : TokStream),
      astRun fuel (AMode.call_args name args) ts = Except.ok (e, ts') →
      ∃ as2, e = ExprAst.CallAst name as2 := by
  induction fuel with
  | zero =>
    intro name args ts e ts' h
    exact Except.noConfusion h
  | succ f ih =>
    intro name args ts e ts' h
    rw [astRun] at h
    cases harg : astRun f AMode.parse ts with
    | error e0 => rw [harg] at h; exact Except.noConfusion h
    | ok v =>
      obtain ⟨arg, ts1⟩ := v
      rw [harg] at h
      dsimp only at h
      by_cases hrp : ts1.peek_first = Token.RightParen
      · rw [if_pos hrp] at h
        exact ⟨args ++ [arg],
          by injection h with h1; injection h1 with h2 _; exact h2.symm⟩
      · rw [if_neg hrp] at h
        by_cases hcm : ts1.peek_first = Token.Comma
        · rw [if_pos hcm] at h
          exact ih name (args ++ [arg]) (TokStream.next ts1).2 e ts' h
        · rw [if_neg hcm] at h
          exact Except.noConfusion h

/-- parse_call of `ast.rs` on a pending identifier returns a call node
whose callee is exactly that identifier. -/
theorem astRun_parse_call_name (f : ℕ) (ts : TokStream) (s : String)
    (e : ExprAst) (ts' : TokStream) (hpk : ts.peek_first = Token.Identifier s)
    (h : astRun f AMode.parse_call ts = Except.ok (e, ts')) :
    ∃ args, e = ExprAst.CallAst s args := by
  cases f with
  | zero => exact Except.noConfusion h
  | succ g =>
    rw [astRun] at h
    have hnext : TokStream.next ts = (Token.Identifier s, ts.tail) := by
      simp [TokStream.next, hpk]
    rw [hnext] at h
    dsimp only at h
    exact astRun_call_args_shape g s [] _ e ts' h

/-- C7 (amended): in both implementations an identifier at a primary
position parses as a call exactly when the second lookahead token is `(`,
and as a variable reference otherwise — stated here as one dispatch
theorem per implementation; `"foo"` yields `VariableRef("foo")` and
`"foo(1,2)"` yields `Call("foo", [1, 2])` in both implementations, and the
empty argument list `"foo()"` yields `Call("foo", [])` in `parser.rs`,
while `ast.rs`'s call parser faults on an empty argument list. -/
theorem c7_amended_call_vs_variable :
    (∀ (fuel : ℕ) (ts : TokStream) (s : String) (e : ExprAst) (ts' : TokStream),
      ts.peek_first = Token.Identifier s →
      parserRun fuel PMode.parse_primary ts = Except.ok (e, ts') →
      (ts.peek_second = Token.LeftParen ∧ ∃ args, e = ExprAst.CallAst s args)
      ∨ (ts.peek_second ≠ Token.LeftParen ∧ e = ExprAst.VarAst s))
  ∧ ExprAst.parse 20 [Token.Identifier "foo"]
      = Except.ok (ExprAst.VarAst "foo", [])
  ∧ ExprAst.parse 20 [Token.Identifier "foo", Token.LeftParen, Token.RightParen]
      = Except.ok (ExprAst.CallAst "foo" [], [])
  ∧ ExprAst.parse 20 [Token.Identifier "foo", Token.LeftParen, Token.Number 1,
      Token.Comma, Token.Number 2, Token.RightParen]
      = Except.ok (ExprAst.CallAst "foo" [ExprAst.NumAst 1, ExprAst.NumAst 2], [])
  ∧ ExprAST.parse 20 [Token.Identifier "foo", Token.LeftParen, Token.Number 1,
      Token.Comma, Token.Number 2, Token.RightParen]
      = Except.ok (ExprAst.CallAst "foo" [ExprAst.NumAst 1, ExprAst.NumAst 2], [])
  ∧ (∀ (fuel : ℕ) (ts : TokStream) (s : String) (e : ExprAst) (ts' : TokStream),
      ts.peek_first = Token.Identifier s →
      astRun fuel AMode.parse_primary ts = Except.ok (e, ts') →
      (ts.peek_second = Token.LeftParen ∧ ∃ args, e = ExprAst.CallAst s args)
      ∨ (ts.peek_second ≠ Token.LeftParen ∧ e = ExprAst.VarAst s))
  ∧ ExprAST.parse 20 [Token.Identifier "foo"]
      = Except.ok (ExprAst.VarAst "foo", []) := by
  refine ⟨?_, rfl, rfl, rfl, rfl, ?_, rfl⟩
  · intro fuel ts s e ts' hpk h
    cases fuel with
    | zero => exact Except.noConfusion h
    | succ f =>
      rw [parserRun] at h
      rw [hpk] at h
      dsimp only at h
      cases hpk2 : ts.peek_second <;> rw [hpk2] at h <;> dsimp only at h <;>
        first
        | exact Or.inl ⟨rfl, parserRun_parse_call_name f ts s e ts' hpk h⟩
        | exact Or.inr ⟨by simp, (parserRun_parse_var_result f ts s e ts' hpk h).1⟩
  · intro fuel ts s e ts' hpk h
    cases fuel with
    | zero => exact Except.noConfusion h
    | succ f =>
      rw [astRun] at h
      rw [hpk] at h
      dsimp only at h
      by_cases hpk2 : ts.peek_second = Token.LeftParen
      · rw [if_pos hpk2] at h
        exact Or.inl ⟨hpk2, astRun_parse_call_name f ts s e ts' hpk h⟩
      · rw [if_neg hpk2] at h
        have hnext : TokStream.next ts = (Token.Identifier s, ts.tail) := by
          simp [TokStream.next, hpk]
        rw [hnext] at h
        dsimp only at h
        injection h with h1
        injection h1 with hA _
        exact Or.inr ⟨hpk2, hA.symm⟩

/-- C7: counterexample — `ast.rs`'s call parser does not support the empty
argument list: parsing the token stream of `"foo()"` faults instead of
yielding `Call("foo", [])`. -/
theorem c7_counterexample_empty_args_fault :
    ExprAST.parse 20 [Token.Identifier "foo", Token.LeftParen, Token.RightParen]
      = Except.error ParseErr.fault := rfl

/-- Witness for C7 (amended): an identifier whose second lookahead is not
`(` parses as a variable reference. -/
theorem c7_witness :
    TokStream.peek_first [Token.Identifier "g", Token.Semi] = Token.Identifier "g"
  ∧ parserRun 20 PMode.parse_primary [Token.Identifier "g", Token.Semi]
      = Except.ok (ExprAst.VarAst "g", [Token.Semi])
  ∧ ((TokStream.peek_second [Token.Identifier "g", Token.Semi] = Token.LeftParen
        ∧ ∃ args, ExprAst.VarAst "g" = ExprAst.CallAst "g" args)
     ∨ (TokStream.peek_second [Token.Identifier "g", Token.Semi] ≠ Token.LeftParen
        ∧ ExprAst.VarAst "g" = ExprAst.VarAst "g")) :=
  ⟨rfl, rfl,
    c7_amended_call_vs_variable.1 20 [Token.Identifier "g", Token.Semi] "g"
      (ExprAst.VarAst "g") [Token.Semi] rfl rfl⟩

/-! Claim C10: equivalence of the two expression parsers. -/

/-- Post-condition of `parser.rs`'s parse_bin_rhs (and of the loop inside
it): when it returns, the pending token's precedence is at most the
`prec_prev` threshold it was given — the stop condition of line 64. -/
theorem parserRun_bin_post (fuel : ℕ) :
    (∀ (lhs : ExprAst) (p : ℤ) (ts : TokStream) (e : ExprAst) (ts' : TokStream),
      parserRun fuel (PMode.parse_bin_rhs lhs p) ts = Except.ok (e, ts') →
      ExprAst.get_precedence ts'.peek_first ≤ p)
  ∧ (∀ (lhs : ExprAst) (op : Char) (rhs : ExprAst) (p c : ℤ) (ts : TokStream)
      (e : ExprAst) (ts' : TokStream),
      parserRun fuel (PMode.bin_loop lhs op rhs p c) ts = Except.ok (e, ts') →
      ExprAst.get_precedence ts'.peek_first ≤ p) := by
  induction fuel with
  | zero =>
    exact ⟨fun _ _ _ _ _ h => Except.noConfusion h,
           fun _ _ _ _ _ _ _ _ h => Except.noConfusion h⟩
  | succ f ih =>
    constructor
    · intro lhs p ts e ts' h
      rw [parserRun] at h
      by_cases hle : ExprAst.get_precedence ts.peek_first ≤ p
      · rw [if_pos hle] at h
        injection h with h1
        injection h1 with h2 h3
        rw [← h3]
        exact hle
      · rw [if_neg hle] at h
        cases hop : binopChar (TokStream.next ts).1 with
        | none => rw [hop] at h; exact Except.noConfusion h
        | some op =>
          rw [hop] at h
          dsimp only at h
          cases hprim : parserRun f PMode.parse_primary (TokStream.next ts).2 with
          | error e0 => rw [hprim] at h; exact Except.noConfusion h
          | ok v =>
            obtain ⟨rhs, ts2⟩ := v
            rw [hprim] at h
            dsimp only at h
            exact ih.2 lhs op rhs p _ ts2 e ts' h
    · intro lhs op rhs p c ts e ts' h
      rw [parserRun] at h
      by_cases hle : ExprAst.get_precedence ts.peek_first ≤ c
      · rw [if_pos hle] at h
        exact ih.1 _ p ts e ts' h
      · rw [if_neg hle] at h
        cases hinner : parserRun f (PMode.parse_bin_rhs rhs c) ts with
        | error e0 => rw [hinner] at h; exact Except.noConfusion h
        | ok v =>
          obtain ⟨rhs', ts1⟩ := v
          rw [hinner] at h
          dsimp only at h
          exact ih.2 lhs op rhs' p c ts1 e ts' h

/-- The expression parser of `ast.rs` faults when the pending token is a
`)` (parse_primary has no arm for it), so it can never succeed there. -/
theorem astRun_parse_rparen_fault (k : ℕ) (ts : TokStream)
    (hpk : ts.peek_first = Token.RightParen) (r : ExprAst × TokStream)
    (h : astRun k AMode.parse ts = Except.ok r) : False := by
  cases k with
  | zero => exact Except.noConfusion h
  | succ f =>
    rw [astRun] at h
    cases f with
    | zero => exact Except.noConfusion h
    | succ g =>
      have hprim : astRun (g + 1) AMode.parse_primary ts = Except.error ParseErr.fault := by
        rw [astRun, hpk]
      rw [hprim] at h
      exact Except.noConfusion h

/-- Relation between a stop threshold of `ast.rs`'s parse_bin_ops and one
of `parser.rs`'s parse_bin_rhs under which the two behave identically:
either both are the top-level threshold 0, or the `ast.rs` one is the
`parser.rs` one plus one (`tok_prec + 1` versus `tok_prec`). -/
def Aligned (a b : ℤ) : Prop := (a = 0 ∧ b = 0) ∨ a = b + 1

/-- Aligned thresholds make the two stop conditions (`tok_prec <
expr_prec` in `ast.rs`, `prec_cur <= prec_prev` in `parser.rs`) agree on
every token, since no token has precedence 0. -/
theorem aligned_stop_iff {a b : ℤ} (hab : Aligned a b) (t : Token) :
    (precedence t < a ↔ precedence t ≤ b) := by
  rcases precedence_values t with h | h | h | h <;>
    rcases hab with ⟨ha, hb⟩ | hab <;> omega

/-- Simultaneous equivalence of all the mutually recursive routines of the
two expression parsers, for any pair of fuels of total size at most `N`:
whenever the `ast.rs` routine and the corresponding `parser.rs` routine
both succeed on the same token stream, they return the same tree and the
same remaining stream.  The binary-operator routines are compared at
`Aligned` thresholds. -/
theorem astRun_parserRun_equiv_aux : ∀ N n m : ℕ, n + m ≤ N →
    ( (∀ (ts : TokStream) (e1 : ExprAst) (ts1 : TokStream) (e2 : ExprAst) (ts2 : TokStream),
        astRun n AMode.parse ts = Except.ok (e1, ts1) →
        parserRun m PMode.parse ts = Except.ok (e2, ts2) → e1 = e2 ∧ ts1 = ts2)
    ∧ (∀ (ts : TokStream) (e1 : ExprAst) (ts1 : TokStream) (e2 : ExprAst) (ts2 : TokStream),
        astRun n AMode.parse_primary ts = Except.ok (e1, ts1) →
        parserRun m PMode.parse_primary ts = Except.ok (e2, ts2) → e1 = e2 ∧ ts1 = ts2)
    ∧ (∀ (ts : TokStream) (e1 : ExprAst) (ts1 : TokStream) (e2 : ExprAst) (ts2 : TokStream),
        astRun n AMode.parse_paren ts = Except.ok (e1, ts1) →
        parserRun m PMode.parse_paren ts = Except.ok (e2, ts2) → e1 = e2 ∧ ts1 = ts2)
    ∧ (∀ (ts : TokStream) (e1 : ExprAst) (ts1 : TokStream) (e2 : ExprAst) (ts2 : TokStream),
        astRun n AMode.parse_call ts = Except.ok (e1, ts1) →
        parserRun m PMode.parse_call ts = Except.ok (e2, ts2) → e1 = e2 ∧ ts1 = ts2)
    ∧ (∀ (name : String) (args : List ExprAst) (ts : TokStream) (e1 : ExprAst)
        (ts1 : TokStream) (e2 : ExprAst) (ts2 : TokStream),
        astRun n (AMode.call_args name args) ts = Except.ok (e1, ts1) →
        parserRun m (PMode.call_args name args) ts = Except.ok (e2, ts2) → e1 = e2 ∧ ts1 = ts2)
    ∧ (∀ (a b : ℤ) (lhs : ExprAst) (ts : TokStream) (e1 : ExprAst) (ts1 : TokStream)
        (e2 : ExprAst) (ts2 : TokStream), Aligned a b →
        astRun n (AMode.parse_bin_ops a lhs) ts = Except.ok (e1, ts1) →
        parserRun m (PMode.parse_bin_rhs lhs b) ts = Except.ok (e2, ts2) → e1 = e2 ∧ ts1 = ts2) ) := by
  intro N
  induction N with
  | zero =>
    intro n m hnm
    have hn : n = 0 := by omega
    subst hn
    exact ⟨fun _ _ _ _ _ h _ => Except.noConfusion h,
           fun _ _ _ _ _ h _ => Except.noConfusion h,
           fun _ _ _ _ _ h _ => Except.noConfusion h,
           fun _ _ _ _ _ h _ => Except.noConfusion h,
           fun _ _ _ _ _ _ _ h _ => Except.noConfusion h,
           fun _ _ _ _ _ _ _ _ _ h _ => Except.noConfusion h⟩
  | succ N ihN =>
    intro n m hnm
    cases n with
    | zero =>
      exact ⟨fun _ _ _ _ _ h _ => Except.noConfusion h,
             fun _ _ _ _ _ h _ => Except.noConfusion h,
             fun _ _ _ _ _ h _ => Except.noConfusion h,
             fun _ _ _ _ _ h _ => Except.noConfusion h,
             fun _ _ _ _ _ _ _ h _ => Except.noConfusion h,
             fun _ _ _ _ _ _ _ _ _ h _ => Except.noConfusion h⟩
    | succ n' =>
      cases m with
      | zero =>
        exact ⟨fun _ _ _ _ _ _ h => Except.noConfusion h,
               fun _ _ _ _ _ _ h => Except.noConfusion h,
               fun _ _ _ _ _ _ h => Except.noConfusion h,
               fun _ _ _ _ _ _ h => Except.noConfusion h,
               fun _ _ _ _ _ _ _ _ h => Except.noConfusion h,
               fun _ _ _ _ _ _ _ _ _ _ h => Except.noConfusion h⟩
      | succ m' =>
        have IH : ∀ u v : ℕ, u ≤ n' → v ≤ m' →
            ( (∀ (ts : TokStream) (e1 : ExprAst) (ts1 : TokStream) (e2 : ExprAst) (ts2 : TokStream),
                astRun u AMode.parse ts = Except.ok (e1, ts1) →
                parserRun v PMode.parse ts = Except.ok (e2, ts2) → e1 = e2 ∧ ts1 = ts2)
            ∧ (∀ (ts : TokStream) (e1 : ExprAst) (ts1 : TokStream) (e2 : ExprAst) (ts2 : TokStream),
                astRun u AMode.parse_primary ts = Except.ok (e1, ts1) →
                parserRun v PMode.parse_primary ts = Except.ok (e2, ts2) → e1 = e2 ∧ ts1 = ts2)
            ∧ (∀ (ts : TokStream) (e1 : ExprAst) (ts1 : TokStream) (e2 : ExprAst) (ts2 : TokStream),
                astRun u AMode.parse_paren ts = Except.ok (e1, ts1) →
                parserRun v PMode.parse_paren ts = Except.ok (e2, ts2) → e1 = e2 ∧ ts1 = ts2)
            ∧ (∀ (ts : TokStream) (e1 : ExprAst) (ts1 : TokStream) (e2 : ExprAst) (ts2 : TokStream),
                astRun u AMode.parse_call ts = Except.ok (e1, ts1) →
                parserRun v PMode.parse_call ts = Except.ok (e2, ts2) → e1 = e2 ∧ ts1 = ts2)
            ∧ (∀ (name : String) (args : List ExprAst) (ts : TokStream) (e1 : ExprAst)
                (ts1 : TokStream) (e2 : ExprAst) (ts2 : TokStream),
                astRun u (AMode.call_args name args) ts = Except.ok (e1, ts1) →
                parserRun v (PMode.call_args name args) ts = Except.ok (e2, ts2) → e1 = e2 ∧ ts1 = ts2)
            ∧ (∀ (a b : ℤ) (lhs : ExprAst) (ts : TokStream) (e1 : ExprAst) (ts1 : TokStream)
                (e2 : ExprAst) (ts2 : TokStream), Aligned a b →
                astRun u (AMode.parse_bin_ops a lhs) ts = Except.ok (e1, ts1) →
                parserRun v (PMode.parse_bin_rhs lhs b) ts = Except.ok (e2, ts2) → e1 = e2 ∧ ts1 = ts2) ) :=
          fun u v hu hv => ihN u v (by omega)
        refine ⟨?_, ?_, ?_, ?_, ?_, ?_⟩
        -- parse
        · intro ts e1 ts1 e2 ts2 h1 h2
          rw [astRun] at h1
          rw [parserRun] at h2
          cases ha : astRun n' AMode.parse_primary ts with
          | error e0 => rw [ha] at h1; exact Except.noConfusion h1
          | ok va =>
            obtain ⟨la, tsa⟩ := va
            rw [ha] at h1
            dsimp only at h1
            cases hp : parserRun m' PMode.parse_primary ts with
            | error e0 => rw [hp] at h2; exact Except.noConfusion h2
            | ok vp =>
              obtain ⟨lp, tsp⟩ := vp
              rw [hp] at h2
              dsimp only at h2
              obtain ⟨rfl, rfl⟩ := (IH n' m' le_rfl le_rfl).2.1 ts la tsa lp tsp ha hp
              exact (IH n' m' le_rfl le_rfl).2.2.2.2.2 0 0 la tsa e1 ts1 e2 ts2
                (Or.inl ⟨rfl, rfl⟩) h1 h2
        -- parse_primary
        · intro ts e1 ts1 e2 ts2 h1 h2
          rw [astRun] at h1
          rw [parserRun] at h2
          cases hpk : ts.peek_first <;> rw [hpk] at h1 h2 <;> try dsimp only at h1 h2
          any_goals exact Except.noConfusion h1
          case Number q =>
            cases m' with
            | zero => exact Except.noConfusion h2
            | succ m'' =>
              rw [parserRun] at h2
              have hnx : TokStream.next ts = (Token.Number q, ts.tail) := by
                simp [TokStream.next, hpk]
              rw [hnx] at h2
              dsimp only at h2
              injection h1 with h1'
              injection h1' with hA hB
              injection h2 with h2'
              injection h2' with hC hD
              exact ⟨hA.symm.trans hC, hB.symm.trans hD⟩
          case LeftParen =>
            exact (IH n' m' le_rfl le_rfl).2.2.1 ts e1 ts1 e2 ts2 h1 h2
          case Identifier s =>
            by_cases hpk2 : ts.peek_second = Token.LeftParen
            · rw [if_pos hpk2] at h1
              rw [hpk2] at h2
              dsimp only at h2
              exact (IH n' m' le_rfl le_rfl).2.2.2.1 ts e1 ts1 e2 ts2 h1 h2
            · rw [if_neg hpk2] at h1
              have hnx : TokStream.next ts = (Token.Identifier s, ts.tail) := by
                simp [TokStream.next, hpk]
              rw [hnx] at h1
              dsimp only at h1
              cases hpk2c : ts.peek_second <;> rw [hpk2c] at h2 <;> dsimp only at h2 <;>
                first
                | exact absurd hpk2c hpk2
                | · have hv := parserRun_parse_var_result m' ts s e2 ts2 hpk h2
                    injection h1 with h1'
                    injection h1' with hA hB
                    exact ⟨by rw [← hA, hv.1], by rw [← hB, hv.2]⟩
        -- parse_paren
        · intro ts e1 ts1 e2 ts2 h1 h2
          rw [astRun] at h1
          rw [parserRun] at h2
          cases hia : astRun n' AMode.parse (TokStream.next ts).2 with
          | error e0 => rw [hia] at h1; exact Except.noConfusion h1
          | ok va =>
            obtain ⟨val, tsv⟩ := va
            rw [hia] at h1
            dsimp only at h1
            cases hip : parserRun m' PMode.parse (TokStream.next ts).2 with
            | error e0 => rw [hip] at h2; exact Except.noConfusion h2
            | ok vp =>
              obtain ⟨val2, tsv2⟩ := vp
              rw [hip] at h2
              dsimp only at h2
              obtain ⟨rfl, rfl⟩ := (IH n' m' le_rfl le_rfl).1 _ _ _ _ _ hia hip
              by_cases hrp : tsv.peek_first = Token.RightParen
              · rw [if_pos hrp] at h1
                rw [hrp] at h2
                dsimp only at h2
                injection h1 with h1'
                injection h1' with hA hB
                injection h2 with h2'
                injection h2' with hC hD
                exact ⟨by rw [← hA, ← hC], by rw [← hB, ← hD]⟩
              · rw [if_neg hrp] at h1
                exact Except.noConfusion h1
        -- parse_call
        · intro ts e1 ts1 e2 ts2 h1 h2
          rw [astRun] at h1
          rw [parserRun] at h2
          cases hpk : ts.peek_first <;>
            [skip; skip; skip; skip; skip; skip; skip; skip; skip; skip; skip;
             skip; skip] <;>
            have hnx : TokStream.next ts = (ts.peek_first, ts.tail) := rfl <;>
            rw [hpk] at hnx <;> rw [hnx] at h1 h2 <;> dsimp only at h1 h2
          any_goals exact Except.noConfusion h1
          case Identifier s =>
            exact (IH n' m' le_rfl le_rfl).2.2.2.2.1 s [] _ e1 ts1 e2 ts2 h1 h2
        -- call_args
        · intro name args ts e1 ts1 e2 ts2 h1 h2
          rw [astRun] at h1
          rw [parserRun] at h2
          by_cases hrp : ts.peek_first = Token.RightParen
          · exfalso
            cases harga : astRun n' AMode.parse ts with
            | error e0 => rw [harga] at h1; exact Except.noConfusion h1
            | ok r => exact astRun_parse_rparen_fault n' ts hrp r harga
          · rw [if_neg hrp] at h2
            cases harga : astRun n' AMode.parse ts with
            | error e0 => rw [harga] at h1; exact Except.noConfusion h1
            | ok ra =>
              obtain ⟨argA, tsA⟩ := ra
              rw [harga] at h1
              dsimp only at h1
              cases hargp : parserRun m' PMode.parse ts with
              | error e0 => rw [hargp] at h2; exact Except.noConfusion h2
              | ok rp =>
                obtain ⟨argP, tsP⟩ := rp
                rw [hargp] at h2
                dsimp only at h2
                obtain ⟨rfl, rfl⟩ := (IH n' m' le_rfl le_rfl).1 _ _ _ _ _ harga hargp
                by_cases hrpA : tsA.peek_first = Token.RightParen
                · rw [if_pos hrpA] at h1
                  rw [hrpA] at h2
                  dsimp only at h2
                  injection h1 with h1'
                  injection h1' with hA hB
                  injection h2 with h2'
                  injection h2' with hC hD
                  exact ⟨by rw [← hA, ← hC], by rw [← hB, ← hD]⟩
                · rw [if_neg hrpA] at h1
                  by_cases hcmA : tsA.peek_first = Token.Comma
                  · rw [if_pos hcmA] at h1
                    rw [hcmA] at h2
                    dsimp only at h2
                    exact (IH n' m' le_rfl le_rfl).2.2.2.2.1 name (args ++ [argA]) _
                      e1 ts1 e2 ts2 h1 h2
                  · rw [if_neg hcmA] at h1
                    exact Except.noConfusion h1
        -- parse_bin_ops / parse_bin_rhs
        · intro a b lhs ts e1 ts1 e2 ts2 hab h1 h2
          rw [astRun] at h1
          rw [parserRun] at h2
          rw [get_precedence_eq_precedence] at h2
          have hstop := aligned_stop_iff hab ts.peek_first
          by_cases hlt : precedence ts.peek_first < a
          · have hle : precedence ts.peek_first ≤ b := hstop.mp hlt
            rw [if_pos hlt] at h1
            rw [if_pos hle] at h2
            injection h1 with h1'
            injection h1' with hA hB
            injection h2 with h2'
            injection h2' with hC hD
            exact ⟨by rw [← hA, ← hC], by rw [← hB, ← hD]⟩
          · have hle : ¬ precedence ts.peek_first ≤ b := fun hc => hlt (hstop.mpr hc)
            rw [if_neg hlt] at h1
            rw [if_neg hle] at h2
            cases hop : binopChar (TokStream.next ts).1 with
            | none => rw [hop] at h1; exact Except.noConfusion h1
            | some op =>
              rw [hop] at h1 h2
              dsimp only at h1 h2
              cases hpa : astRun n' AMode.parse_primary (TokStream.next ts).2 with
              | error e0 => rw [hpa] at h1; exact Except.noConfusion h1
              | ok ra =>
                obtain ⟨rhsA, tsA⟩ := ra
                rw [hpa] at h1
                dsimp only at h1
                cases hpp : parserRun m' PMode.parse_primary (TokStream.next ts).2 with
                | error e0 => rw [hpp] at h2; exact Except.noConfusion h2
                | ok rp =>
                  obtain ⟨rhsP, tsP⟩ := rp
                  rw [hpp] at h2
                  dsimp only at h2
                  obtain ⟨rfl, rfl⟩ := (IH n' m' le_rfl le_rfl).2.1 _ _ _ _ _ hpa hpp
                  cases m' with
                  | zero => exact Except.noConfusion h2
                  | succ m'' =>
                    rw [parserRun] at h2
                    rw [get_precedence_eq_precedence] at h2
                    by_cases hext : precedence ts.peek_first < precedence tsA.peek_first
                    · have h2c : ¬ precedence tsA.peek_first ≤ precedence ts.peek_first := by
                        omega
                      rw [if_pos hext] at h1
                      rw [if_neg h2c] at h2
                      cases hxa : astRun n' (AMode.parse_bin_ops (precedence ts.peek_first + 1) rhsA) tsA with
                      | error e0 => rw [hxa] at h1; exact Except.noConfusion h1
                      | ok xa =>
                        obtain ⟨rhsA', ts3⟩ := xa
                        rw [hxa] at h1
                        dsimp only at h1
                        cases hxp : parserRun m'' (PMode.parse_bin_rhs rhsA (precedence ts.peek_first)) tsA with
                        | error e0 => rw [hxp] at h2; exact Except.noConfusion h2
                        | ok xp =>
                          obtain ⟨rhsP', ts3'⟩ := xp
                          rw [hxp] at h2
                          dsimp only at h2
                          obtain ⟨rfl, rfl⟩ := (IH n' m'' le_rfl (by omega)).2.2.2.2.2
                            (precedence ts.peek_first + 1) (precedence ts.peek_first)
                            rhsA tsA _ _ _ _ (Or.inr rfl) hxa hxp
                          cases m'' with
                          | zero => exact Except.noConfusion h2
                          | succ m3 =>
                            rw [parserRun] at h2
                            rw [get_precedence_eq_precedence] at h2
                            have hpost : ExprAst.get_precedence ts3.peek_first
                                ≤ precedence ts.peek_first :=
                              (parserRun_bin_post (m3 + 1)).1 rhsA
                                (precedence ts.peek_first) tsA rhsA' ts3 hxp
                            rw [get_precedence_eq_precedence] at hpost
                            rw [if_pos hpost] at h2
                            exact (IH n' m3 le_rfl (by omega)).2.2.2.2.2 a b
                              (ExprAst.BinAst lhs op rhsA') ts3 e1 ts1 e2 ts2 hab h1 h2
                    · have h2c : precedence tsA.peek_first ≤ precedence ts.peek_first := by
                        omega
                      rw [if_neg hext] at h1
                      rw [if_pos h2c] at h2
                      exact (IH n' m'' le_rfl (by omega)).2.2.2.2.2 a b
                        (ExprAst.BinAst lhs op rhsA) tsA e1 ts1 e2 ts2 hab h1 h2

/-- C10: on every token stream on which both succeed without faulting, the
two independent expression parsers — `ExprAST::parse` of `ast.rs` (stop
condition `tok_prec < expr_prec`, recursing with threshold `tok_prec + 1`)
and `ExprAst::parse` of `parser.rs` (stop condition `prec_cur <=
prec_prev`, recursing with threshold `prec_cur`) — produce structurally
identical expression trees (and consume the same tokens), at any pair of
fuels.  Both implementations are embedded over the same tree carrier, so
structural identity is equality. -/
theorem c10_expr_parsers_equivalent (n m : ℕ) (ts : TokStream)
    (e1 : ExprAst) (ts1 : TokStream) (e2 : ExprAst) (ts2 : TokStream)
    (h1 : ExprAST.parse n ts = Except.ok (e1, ts1))
    (h2 : ExprAst.parse m ts = Except.ok (e2, ts2)) :
    e1 = e2 ∧ ts1 = ts2 :=
  (astRun_parserRun_equiv_aux (n + m) n m le_rfl).1 ts e1 ts1 e2 ts2 h1 h2

/-- Witness for C10: both parsers succeed on the token stream of
`"1 + 2 * 3"` and the theorem equates their results. -/
theorem c10_witness :
    ExprAST.parse 20 [Token.Number 1, Token.Add, Token.Number 2, Token.Mul, Token.Number 3]
      = Except.ok (ExprAst.BinAst (ExprAst.NumAst 1) '+'
          (ExprAst.BinAst (ExprAst.NumAst 2) '*' (ExprAst.NumAst 3)), [])
  ∧ ExprAst.parse 20 [Token.Number 1, Token.Add, Token.Number 2, Token.Mul, Token.Number 3]
      = Except.ok (ExprAst.BinAst (ExprAst.NumAst 1) '+'
          (ExprAst.BinAst (ExprAst.NumAst 2) '*' (ExprAst.NumAst 3)), [])
  ∧ (ExprAst.BinAst (ExprAst.NumAst 1) '+'
        (ExprAst.BinAst (ExprAst.NumAst 2) '*' (ExprAst.NumAst 3))
      = ExprAst.BinAst (ExprAst.NumAst 1) '+'
          (ExprAst.BinAst (ExprAst.NumAst 2) '*' (ExprAst.NumAst 3))
     ∧ ([] : TokStream) = ([] : TokStream)) :=
  ⟨rfl, rfl,
    c10_expr_parsers_equivalent 20 20
      [Token.Number 1, Token.Add, Token.Number 2, Token.Mul, Token.Number 3]
      (ExprAst.BinAst (ExprAst.NumAst 1) '+'
        (ExprAst.BinAst (ExprAst.NumAst 2) '*' (ExprAst.NumAst 3))) []
      (ExprAst.BinAst (ExprAst.NumAst 1) '+'
        (ExprAst.BinAst (ExprAst.NumAst 2) '*' (ExprAst.NumAst 3))) []
      rfl rfl⟩
